import Mathlib

/-!
Shallow embedding of the guess_glottocode candidate-resolution core
(`src/guess_glottocode/utils.py`): the geospatial candidate filter
`geo_filter_glottocodes`, the relation expanders `find_children` and
`find_parents`, the ancestry walker `find_ancestors`, and the
name-verification helpers `extract_altnames`, `check_name` and
`verify_glottocode_guess`.

Pandas data frames are modelled as lists of rows and machine floats as
rationals.  The external spatial machinery (pyproj UTM estimation,
shapely buffering, geopandas sjoin) is outside the repository and is
modelled from the spec as a metrically scaled planar distance test.
Network fetches are abstracted as explicit inputs.  The unbounded
Python `while` loop of `find_ancestors` is modelled with explicit
fuel; termination on acyclic tables is proved as fuel-stability.
-/

namespace GuessGlottocode

/-- A longitude/latitude pair, as the `(lon, lat)` tuple accepted by
`process_location`.  Coordinates are modelled as rationals. -/
structure GeoPoint where
  lon : ℚ
  lat : ℚ
deriving DecidableEq, Repr

/-- One row of the Glottolog languoid table built by `get_glottolog`:
id, parent_id (`none` for roots, NaN in pandas), display name, level,
and the optional point geometry built from longitude/latitude. -/
structure Row where
  id : String
  parent_id : Option String
  name : String
  level : String
  point : Option GeoPoint
deriving DecidableEq, Repr

/-- The pipeline stages of `geo_filter_glottocodes` that perform
spatial work, in source order: `process_location` (utils.py line 117),
the UTM buffer construction (lines 120-127), the spatial join (lines
130-134) and the child/parent expansion (lines 137-138).  The trace
records which stages have run in a call. -/
inductive GeoEvent where
  | geometryNormalization
  | buffering
  | spatialJoin
  | relationExpansion
deriving DecidableEq, Repr

/-- The `ValueError` raised by `geo_filter_glottocodes` for a level
outside the four recognized values (utils.py lines 146-148). -/
inductive GeoError where
  | invalidLevel (level : String)
deriving DecidableEq, Repr

/-- Python exceptions relevant to `verify_glottocode_guess`: a
`KeyError` from dictionary subscription and the `IndexError` that the
`try` block catches. -/
inductive PyError where
  | keyError (key : String)
  | indexError
deriving DecidableEq, Repr

/-- Modelled from the spec: kilometres per degree of latitude, used by
the planar distance model that stands in for the external UTM
projection machinery. -/
def kmPerDeg : ℚ := 11132 / 100

/-- Modelled from the spec: rational approximation of the cosine of an
angle given in degrees (fourth-order Taylor polynomial with a rational
approximation of pi), used to scale longitudinal distances by the
cosine of the query latitude. -/
def cosDeg (d : ℚ) : ℚ :=
  let x := d * (355 / 113) / 180
  1 - x ^ 2 / 2 + x ^ 4 / 24

/-- Modelled from the spec: squared planar distance in kilometres
between two points, with longitude degrees scaled by the cosine of the
first point's latitude. -/
def distSqKm (a b : GeoPoint) : ℚ :=
  ((b.lon - a.lon) * kmPerDeg * cosDeg a.lat) ^ 2 + ((b.lat - a.lat) * kmPerDeg) ^ 2

/-- Modelled from the spec: the proximity filter "projects the query
geometry into a locally accurate planar coordinate system, buffers it
by `buffer_km * 1000` linear units, and selects every taxonomy node
whose point lies strictly within the buffered shape".  The library
machinery realising this is external to the repository, so the
containment test is modelled as a strict planar distance comparison in
kilometres. -/
def withinBuffer (loc : GeoPoint) (r : ℚ) (p : GeoPoint) : Bool :=
  distSqKm loc p < r ^ 2

/-- Row predicate of the spatial join: the row has a point and that
point lies inside the buffer (rows without a point are never
selected). -/
def pointInBuffer (loc : GeoPoint) (buffer : ℚ) (r : Row) : Bool :=
  match r.point with
  | some p => withinBuffer loc buffer p
  | none => false

/-- Ids of the rows whose point falls inside the buffer around the
query location: the `near` list produced by the spatial join at
utils.py lines 130-134; the containment test itself is the
spec-modelled `withinBuffer`. -/
def seedIds (loc : GeoPoint) (buffer : ℚ) (table : List Row) : List String :=
  (table.filter (pointInBuffer loc buffer)).map (fun r => r.id)

/-- Row predicate of `find_children`: `relatives['parent_id'].isin
(candidate_ids)`, false on a missing `parent_id` as pandas `isin` is
false on NaN. -/
def parentMatches (candidate_ids : List String) (r : Row) : Bool :=
  match r.parent_id with
  | some p => candidate_ids.contains p
  | none => false

/-- Embedding of `find_children` (utils.py lines 155-168): ids of rows
whose `parent_id` is one of the candidate ids. -/
def find_children (candidate_ids : List String) (relatives : List Row) : List String :=
  (relatives.filter (parentMatches candidate_ids)).map (fun r => r.id)

/-- Embedding of `find_parents` (utils.py lines 171-186): the
`parent_id` values of rows whose id is a candidate id, keeping only
string (present) parents. -/
def find_parents (candidate_ids : List String) (relatives : List Row) : List String :=
  (relatives.filter (fun r => candidate_ids.contains r.id)).filterMap (fun r => r.parent_id)

/-- The combined candidate id collection of utils.py line 141 (the
union of near, children and parents); only membership in it is ever
used (set semantics). -/
def candidateIds (loc : GeoPoint) (buffer : ℚ) (table : List Row) : List String :=
  let near := seedIds loc buffer table
  near ++ find_children near table ++ find_parents near table

/-- The candidate rows of utils.py lines 142-144: rows of the table
whose id belongs to the combined candidate id set. -/
def geoCandidates (loc : GeoPoint) (buffer : ℚ) (table : List Row) : List Row :=
  table.filter (fun r => (candidateIds loc buffer table).contains r.id)

/-- Embedding of `geo_filter_glottocodes` (utils.py lines 92-153).
The first component is the trace of spatial pipeline stages executed
during the call; the second is either the resulting rows or the
`ValueError` raised for an unrecognized level.  In the source the
level validation at line 146 runs only after all four spatial stages
(lines 117-144). -/
def geo_filter_glottocodes (loc : GeoPoint) (buffer : ℚ) (level : String)
    (table : List Row) : List GeoEvent × Except GeoError (List Row) :=
  let candidates := geoCandidates loc buffer table
  ([GeoEvent.geometryNormalization, GeoEvent.buffering,
    GeoEvent.spatialJoin, GeoEvent.relationExpansion],
   if level ∈ (["all", "language", "dialect", "family"] : List String) then
     if level = "all" then
       Except.ok candidates
     else
       Except.ok (candidates.filter (fun r => r.level == level))
   else
     Except.error (GeoError.invalidLevel level))

/-- Ids of the rows returned by `geo_filter_glottocodes`, empty when
the call raises. -/
def resolveIds (loc : GeoPoint) (buffer : ℚ) (level : String) (table : List Row) :
    List String :=
  match (geo_filter_glottocodes loc buffer level table).2 with
  | Except.ok rows => rows.map (fun r => r.id)
  | Except.error _ => []

/-- First row of the table carrying the given id: the head of
`relatives[relatives['id'] == current_glottocode]` (utils.py line
239). -/
def lookupRow (table : List Row) (c : String) : Option Row :=
  table.find? (fun r => r.id == c)

/-- Fuel-indexed unfolding of the `while` loop of `find_ancestors`
(utils.py lines 237-242): append the current id, look it up, stop when
the row is absent or its parent is missing, and otherwise continue at
the parent.  The Python loop carries no fuel; fuel-stability on
acyclic tables is proved below. -/
def walkAux (table : List Row) : Nat → String → List String
  | 0, _ => []
  | fuel + 1, current =>
    current ::
      (match lookupRow table current with
       | none => []
       | some row =>
         match row.parent_id with
         | none => []
         | some p => walkAux table fuel p)

/-- Embedding of `find_ancestors` (utils.py lines 222-245), run with
enough fuel for any acyclic table and reversed as in line 244. -/
def find_ancestors (table : List Row) (glottocode : String) : List String :=
  (walkAux table (table.length + 1) glottocode).reverse

/-- One step of the parent chain: the `parent_id` of the row found for
the current id, when both exist. -/
def parentStep (table : List Row) (c : String) : Option String :=
  (lookupRow table c).bind (fun r => r.parent_id)

/-- The id reached after `n` parent steps from `c`; `none` once a step
fails. -/
def chain (table : List Row) (c : String) : Nat → Option String
  | 0 => some c
  | n + 1 => (chain table c n).bind (parentStep table)

/-- Acyclicity in the sense of the claim: following `parent_id` links
from any node never revisits a node. -/
def Acyclic (table : List Row) : Prop :=
  ∀ c n, chain table c (n + 1) ≠ some c

/-- Python `str.lower()` on the ASCII case mapping: lower-case every
character. -/
def pyLower (s : String) : String := String.mk (s.data.map Char.toLower)

/-- Python `str.lstrip()`: drop leading whitespace only. -/
def pyLstrip (s : String) : String :=
  String.mk (s.data.dropWhile (fun c => c.isWhitespace))

/-- The normalisation lambda of `check_name` (utils.py line 317):
`s.lower().lstrip()`. -/
def pyNorm (s : String) : String := pyLstrip (pyLower s)

/-- Embedding of `check_name` (utils.py lines 305-327): true when the
normalised primary name or any normalised alternate name equals the
normalised candidate. -/
def check_name (language : String) (name_glottolog : String)
    (alt_names_glottolog : List (String × List String)) : Bool :=
  if pyNorm name_glottolog == pyNorm language then
    true
  else
    alt_names_glottolog.any (fun source =>
      source.2.any (fun alt => pyNorm alt == pyNorm language))

/-- Parsed `md.ini` record as produced by `parse_ini`: section name to
key/value pairs, both association lists. -/
abbrev Record := List (String × List (String × String))

/-- Embedding of `extract_altnames` (utils.py lines 284-303):
`response.get('altnames', {})`, then each value split on newlines with
empty strings discarded. -/
def extract_altnames (response : Record) : List (String × List String) :=
  let altnames : List (String × String) :=
    match response.find? (fun kv => kv.1 == "altnames") with
    | some kv => kv.2
    | none => []
  altnames.map (fun kv => (kv.1, (kv.2.splitOn "\n").filter (fun v => v != "")))

/-- Python dictionary subscription `d[k]`: the value when the key is
present, a `KeyError` otherwise. -/
def dictGet {α : Type} (d : List (String × α)) (k : String) : Except PyError α :=
  match d.find? (fun kv => kv.1 == k) with
  | some kv => Except.ok kv.2
  | none => Except.error (PyError.keyError k)

/-- Embedding of `build_url` (utils.py lines 247-259) at the header
used by `verify_glottocode_guess` (no trailing slash, relative path),
where `urljoin(header + '/', path)` appends the path. -/
def build_url (ancestors : List String) (header : String) : String :=
  header ++ "/" ++ (String.intercalate "/" ancestors ++ "/md.ini")

/-- Outcome of the HTTP fetch of the authoritative record, abstracted
as an input: either a 404 or a body that `parse_ini` parsed into a
record. -/
inductive FetchResult where
  | notFound
  | ok (record : Record)

/-- Embedding of `verify_glottocode_guess` (utils.py lines 330-363).
The network fetch for the built URL is abstracted as the `fetch`
argument.  The `try` block catches only `IndexError`; the dictionary
subscriptions `response_dict['core']` and `['name']` at line 356 raise
`KeyError`, which propagates. -/
def verify_glottocode_guess (language : String) (glottocode : String)
    (table : List Row) (fetch : FetchResult) : Except PyError Bool :=
  let ancestors := find_ancestors table glottocode
  let _url := build_url ancestors
    "https://raw.githubusercontent.com/glottolog/glottolog/master/languoids/tree"
  let body : Except PyError Bool :=
    match fetch with
    | FetchResult.notFound => Except.ok false
    | FetchResult.ok record =>
      match dictGet record "core" with
      | Except.error e => Except.error e
      | Except.ok core =>
        match dictGet core "name" with
        | Except.error e => Except.error e
        | Except.ok name_glottolog =>
          Except.ok (check_name language name_glottolog (extract_altnames record))
  match body with
  | Except.error PyError.indexError => Except.ok false
  | r => r

/-- Scenario A taxonomy from the spec: `A` (root family at (2, 46)),
`B` (language child of `A` at (2.3, 46.2)), `C` (dialect child of `B`,
no point). -/
def scenarioA : List Row :=
  [⟨"A", none, "A", "family", some ⟨2, 46⟩⟩,
   ⟨"B", some "A", "B", "language", some ⟨23 / 10, 231 / 5⟩⟩,
   ⟨"C", some "B", "C", "dialect", none⟩]

/-- One-row table with a dangling parent reference, used as a concrete
instance for the ancestry-walk theorems. -/
def table1 : List Row :=
  [⟨"B", some "A", "B", "language", none⟩]

/-! Helper lemmas about the geospatial pipeline. -/

theorem contains_iff {l : List String} {a : String} : l.contains a = true ↔ a ∈ l := by
  simp [List.contains, List.elem_iff]

theorem withinBuffer_mono {loc p : GeoPoint} {r1 r2 : ℚ} (h0 : 0 ≤ r1) (h12 : r1 ≤ r2)
    (h : withinBuffer loc r1 p = true) : withinBuffer loc r2 p = true := by
  simp only [withinBuffer, decide_eq_true_eq] at h ⊢
  exact lt_of_lt_of_le h (pow_le_pow_left₀ h0 h12 2)

theorem pointInBuffer_iff {loc : GeoPoint} {b : ℚ} {r : Row} :
    pointInBuffer loc b r = true ↔ ∃ p, r.point = some p ∧ withinBuffer loc b p = true := by
  cases hp : r.point with
  | none => simp [pointInBuffer, hp]
  | some p => simp [pointInBuffer, hp]

theorem pointInBuffer_mono {loc : GeoPoint} {r1 r2 : ℚ} (h0 : 0 ≤ r1) (h12 : r1 ≤ r2)
    {r : Row} (h : pointInBuffer loc r1 r = true) : pointInBuffer loc r2 r = true := by
  obtain ⟨p, hp, hw⟩ := pointInBuffer_iff.mp h
  exact pointInBuffer_iff.mpr ⟨p, hp, withinBuffer_mono h0 h12 hw⟩

theorem parentMatches_iff {ids : List String} {r : Row} :
    parentMatches ids r = true ↔ ∃ p, r.parent_id = some p ∧ p ∈ ids := by
  cases hp : r.parent_id with
  | none => simp [parentMatches, hp]
  | some p => simp [parentMatches, hp, contains_iff]

theorem mem_seedIds {loc : GeoPoint} {b : ℚ} {table : List Row} {s : String} :
    s ∈ seedIds loc b table ↔ ∃ r, r ∈ table ∧ pointInBuffer loc b r = true ∧ r.id = s := by
  simp only [seedIds, List.mem_map, List.mem_filter]
  constructor
  · rintro ⟨r, ⟨h1, h2⟩, h3⟩; exact ⟨r, h1, h2, h3⟩
  · rintro ⟨r, h1, h2, h3⟩; exact ⟨r, ⟨h1, h2⟩, h3⟩

theorem mem_find_children {ids : List String} {t : List Row} {s : String} :
    s ∈ find_children ids t ↔ ∃ r, r ∈ t ∧ parentMatches ids r = true ∧ r.id = s := by
  simp only [find_children, List.mem_map, List.mem_filter]
  constructor
  · rintro ⟨r, ⟨h1, h2⟩, h3⟩; exact ⟨r, h1, h2, h3⟩
  · rintro ⟨r, h1, h2, h3⟩; exact ⟨r, ⟨h1, h2⟩, h3⟩

theorem mem_find_parents {ids : List String} {t : List Row} {s : String} :
    s ∈ find_parents ids t ↔ ∃ r, r ∈ t ∧ r.id ∈ ids ∧ r.parent_id = some s := by
  simp only [find_parents, List.mem_filterMap, List.mem_filter]
  constructor
  · rintro ⟨r, ⟨h1, h2⟩, h3⟩; exact ⟨r, h1, contains_iff.mp h2, h3⟩
  · rintro ⟨r, h1, h2, h3⟩; exact ⟨r, ⟨h1, contains_iff.mpr h2⟩, h3⟩

theorem mem_candidateIds {loc : GeoPoint} {b : ℚ} {table : List Row} {s : String} :
    s ∈ candidateIds loc b table ↔
      s ∈ seedIds loc b table ∨ s ∈ find_children (seedIds loc b table) table ∨
        s ∈ find_parents (seedIds loc b table) table := by
  simp [candidateIds, List.mem_append, or_assoc]

theorem mem_geoCandidates {loc : GeoPoint} {b : ℚ} {table : List Row} {r : Row} :
    r ∈ geoCandidates loc b table ↔ r ∈ table ∧ r.id ∈ candidateIds loc b table := by
  simp [geoCandidates, List.mem_filter, contains_iff]

theorem geo_filter_fst (loc : GeoPoint) (b : ℚ) (level : String) (table : List Row) :
    (geo_filter_glottocodes loc b level table).1 =
      [GeoEvent.geometryNormalization, GeoEvent.buffering, GeoEvent.spatialJoin,
        GeoEvent.relationExpansion] := rfl

theorem geo_filter_all (loc : GeoPoint) (b : ℚ) (table : List Row) :
    (geo_filter_glottocodes loc b "all" table).2 =
      Except.ok (geoCandidates loc b table) := by
  simp [geo_filter_glottocodes]

theorem geo_filter_level (loc : GeoPoint) (b : ℚ) {level : String} (table : List Row)
    (hvalid : level ∈ (["all", "language", "dialect", "family"] : List String))
    (hne : level ≠ "all") :
    (geo_filter_glottocodes loc b level table).2 =
      Except.ok ((geoCandidates loc b table).filter (fun r => r.level == level)) := by
  simp [geo_filter_glottocodes, hvalid, hne]

theorem geo_filter_invalid (loc : GeoPoint) (b : ℚ) {level : String} (table : List Row)
    (h : level ∉ (["all", "language", "dialect", "family"] : List String)) :
    (geo_filter_glottocodes loc b level table).2 =
      Except.error (GeoError.invalidLevel level) := by
  simp [geo_filter_glottocodes, h]

theorem resolveIds_eq_of_ok {loc : GeoPoint} {b : ℚ} {level : String} {table : List Row}
    {rows : List Row} (h : (geo_filter_glottocodes loc b level table).2 = Except.ok rows) :
    resolveIds loc b level table = rows.map (fun r => r.id) := by
  unfold resolveIds
  rw [h]

theorem seedIds_mono {loc : GeoPoint} {r1 r2 : ℚ} (h0 : 0 ≤ r1) (h12 : r1 ≤ r2)
    {table : List Row} : ∀ s ∈ seedIds loc r1 table, s ∈ seedIds loc r2 table := by
  intro s hs
  obtain ⟨r, h1, h2, h3⟩ := mem_seedIds.mp hs
  exact mem_seedIds.mpr ⟨r, h1, pointInBuffer_mono h0 h12 h2, h3⟩

theorem find_children_mono {ids1 ids2 : List String} {t : List Row}
    (hsub : ∀ x ∈ ids1, x ∈ ids2) :
    ∀ s ∈ find_children ids1 t, s ∈ find_children ids2 t := by
  intro s hs
  obtain ⟨r, h1, h2, h3⟩ := mem_find_children.mp hs
  obtain ⟨p, hp1, hp2⟩ := parentMatches_iff.mp h2
  exact mem_find_children.mpr ⟨r, h1, parentMatches_iff.mpr ⟨p, hp1, hsub p hp2⟩, h3⟩

theorem find_parents_mono {ids1 ids2 : List String} {t : List Row}
    (hsub : ∀ x ∈ ids1, x ∈ ids2) :
    ∀ s ∈ find_parents ids1 t, s ∈ find_parents ids2 t := by
  intro s hs
  obtain ⟨r, h1, h2, h3⟩ := mem_find_parents.mp hs
  exact mem_find_parents.mpr ⟨r, h1, hsub _ h2, h3⟩

theorem candidateIds_mono {loc : GeoPoint} {r1 r2 : ℚ} (h0 : 0 ≤ r1) (h12 : r1 ≤ r2)
    {table : List Row} : ∀ s ∈ candidateIds loc r1 table, s ∈ candidateIds loc r2 table := by
  intro s hs
  rcases mem_candidateIds.mp hs with h | h | h
  · exact mem_candidateIds.mpr (Or.inl (seedIds_mono h0 h12 s h))
  · exact mem_candidateIds.mpr (Or.inr (Or.inl
      (find_children_mono (seedIds_mono h0 h12) s h)))
  · exact mem_candidateIds.mpr (Or.inr (Or.inr
      (find_parents_mono (seedIds_mono h0 h12) s h)))

theorem geoCandidates_mono {loc : GeoPoint} {r1 r2 : ℚ} (h0 : 0 ≤ r1) (h12 : r1 ≤ r2)
    {table : List Row} : ∀ r ∈ geoCandidates loc r1 table, r ∈ geoCandidates loc r2 table := by
  intro r hr
  obtain ⟨h1, h2⟩ := mem_geoCandidates.mp hr
  exact mem_geoCandidates.mpr ⟨h1, candidateIds_mono h0 h12 _ h2⟩

/-! Helper lemmas about the ancestry walk. -/

theorem chain_succ_front (table : List Row) (c : String) :
    ∀ n, chain table c (n + 1) = (parentStep table c).bind (fun p => chain table p n)
  | 0 => by
    show (chain table c 0).bind (parentStep table) = _
    cases h : parentStep table c <;> simp [chain, h]
  | n + 1 => by
    have ih := chain_succ_front table c n
    show (chain table c (n + 1)).bind (parentStep table) = _
    rw [ih]
    cases h : parentStep table c <;> simp [chain]

theorem chain_none_mono (table : List Row) (c : String) {n : Nat}
    (h : chain table c n = none) : ∀ k, chain table c (n + k) = none := by
  intro k
  induction k with
  | zero => exact h
  | succ k ih =>
    show (chain table c (n + k)).bind _ = none
    rw [ih]
    rfl

theorem chain_shift (table : List Row) :
    ∀ (i : Nat) (c s : String), chain table c i = some s →
      ∀ d, chain table c (i + d) = chain table s d
  | 0, c, s, h, d => by
    have hc : c = s := by simpa [chain] using h
    subst hc
    rw [Nat.zero_add]
  | i + 1, c, s, h, d => by
    rw [chain_succ_front] at h
    cases hp : parentStep table c with
    | none => rw [hp] at h; exact absurd h (by simp)
    | some p =>
      rw [hp] at h
      simp only [Option.some_bind] at h
      have ih := chain_shift table i p s h d
      have harr : i + 1 + d = (i + d) + 1 := by omega
      rw [harr, chain_succ_front, hp]
      simpa using ih

theorem parentStep_isSome_mem (table : List Row) (s : String)
    (h : (parentStep table s).isSome) : s ∈ table.map (fun r => r.id) := by
  rw [parentStep] at h
  cases hl : lookupRow table s with
  | none => rw [hl] at h; simp at h
  | some row =>
    have hl' : table.find? (fun r => r.id == s) = some row := hl
    have hmem : row ∈ table := List.mem_of_find?_eq_some hl'
    have hid := List.find?_some hl'
    simp only [beq_iff_eq] at hid
    exact List.mem_map.mpr ⟨row, hmem, hid⟩

theorem chain_terminates (table : List Row) (hacyc : Acyclic table) (c : String) :
    chain table c (table.length + 1) = none := by
  by_contra hne
  have hsome : ∀ i, i ≤ table.length + 1 → (chain table c i).isSome := by
    intro i hi
    cases h : chain table c i with
    | none =>
      exfalso
      apply hne
      have := chain_none_mono table c h (table.length + 1 - i)
      rwa [Nat.add_sub_cancel' hi] at this
    | some s => rfl
  have hval : ∀ i, i ≤ table.length → ∃ s, chain table c i = some s ∧
      s ∈ table.map (fun r => r.id) := by
    intro i hi
    have h1 := hsome i (Nat.le_succ_of_le hi)
    obtain ⟨s, hs⟩ := Option.isSome_iff_exists.mp h1
    refine ⟨s, hs, ?_⟩
    have h2 := hsome (i + 1) (Nat.succ_le_succ hi)
    rw [show chain table c (i + 1) = (chain table c i).bind (parentStep table) from rfl,
      hs, Option.some_bind] at h2
    exact parentStep_isSome_mem table s h2
  set f : Nat → String := fun i => (chain table c i).getD "" with hf
  have hinj : ∀ i ∈ List.range (table.length + 1), ∀ j ∈ List.range (table.length + 1),
      f i = f j → i = j := by
    intro i hi j hj hij
    rw [List.mem_range] at hi hj
    by_contra hne2
    have key : ∀ a b : Nat, a < b → b ≤ table.length → f a = f b → False := by
      intro a b hab hb hfab
      obtain ⟨sa, hsa, _⟩ := hval a (le_of_lt (lt_of_lt_of_le hab hb))
      obtain ⟨sb, hsb, _⟩ := hval b hb
      have hEq : sa = sb := by
        have h1 : f a = sa := by rw [hf]; simp [hsa]
        have h2 : f b = sb := by rw [hf]; simp [hsb]
        rw [h1, h2] at hfab
        exact hfab
      subst hEq
      have hstep : chain table c (a + (b - a)) = chain table sa (b - a) :=
        chain_shift table a c sa hsa (b - a)
      rw [Nat.add_sub_cancel' (le_of_lt hab)] at hstep
      rw [hsb] at hstep
      have hpos : b - a = (b - a - 1) + 1 := by omega
      rw [hpos] at hstep
      exact hacyc sa (b - a - 1) hstep.symm
    rcases Nat.lt_trichotomy i j with h | h | h
    · exact key i j h (Nat.lt_succ_iff.mp hj) hij
    · exact hne2 h
    · exact key j i h (Nat.lt_succ_iff.mp hi) hij.symm
  have hnodup : ((List.range (table.length + 1)).map f).Nodup :=
    List.Nodup.map_on hinj (List.nodup_range _)
  have hsubset : (List.range (table.length + 1)).map f ⊆ table.map (fun r => r.id) := by
    intro x hx
    obtain ⟨i, hi, hix⟩ := List.mem_map.mp hx
    rw [List.mem_range] at hi
    obtain ⟨s, hs, hsmem⟩ := hval i (Nat.lt_succ_iff.mp hi)
    have : f i = s := by rw [hf]; simp [hs]
    rw [← hix, this]
    exact hsmem
  have hlen := (List.subperm_of_subset hnodup hsubset).length_le
  rw [List.length_map, List.length_range, List.length_map] at hlen
  omega

theorem walkAux_stable (table : List Row) :
    ∀ (fuel : Nat) (c : String), chain table c fuel = none →
      ∀ k, walkAux table (fuel + k) c = walkAux table fuel c
  | 0, c, h, k => absurd h (by simp [chain])
  | fuel + 1, c, h, k => by
    rw [chain_succ_front] at h
    have harr : fuel + 1 + k = (fuel + k) + 1 := by omega
    rw [harr]
    cases hl : lookupRow table c with
    | none => simp [walkAux, hl]
    | some row =>
      cases hp : row.parent_id with
      | none => simp [walkAux, hl, hp]
      | some p =>
        have hps : parentStep table c = some p := by simp [parentStep, hl, hp]
        rw [hps] at h
        simp only [Option.some_bind] at h
        have ih := walkAux_stable table fuel p h k
        simp [walkAux, hl, hp, ih]

theorem walkAux_getLast (table : List Row) :
    ∀ (fuel : Nat) (c : String), chain table c fuel = none →
      ∀ h, (walkAux table fuel c).getLast? = some h → parentStep table h = none
  | 0, c, hch, h, hlast => absurd hch (by simp [chain])
  | fuel + 1, c, hch, h, hlast => by
    rw [chain_succ_front] at hch
    cases hl : lookupRow table c with
    | none =>
      simp only [walkAux, hl, List.getLast?_singleton, Option.some_inj] at hlast
      subst hlast
      simp [parentStep, hl]
    | some row =>
      cases hp : row.parent_id with
      | none =>
        simp only [walkAux, hl, hp, List.getLast?_singleton, Option.some_inj] at hlast
        subst hlast
        simp [parentStep, hl, hp]
      | some p =>
        have hps : parentStep table c = some p := by simp [parentStep, hl, hp]
        rw [hps] at hch
        simp only [Option.some_bind] at hch
        cases fuel with
        | zero => exact absurd hch (by simp [chain])
        | succ f =>
          simp only [walkAux, hl, hp] at hlast
          rw [List.getLast?_cons_cons] at hlast
          exact walkAux_getLast table (f + 1) p hch h hlast

theorem acyclic_of_depth (table : List Row) (depth : String → Nat)
    (hd : ∀ c p, parentStep table c = some p → depth p < depth c) :
    Acyclic table := by
  have key : ∀ (n : Nat) (c s : String), chain table c n = some s →
      depth s + n ≤ depth c := by
    intro n
    induction n with
    | zero =>
      intro c s h
      have : c = s := by simpa [chain] using h
      subst this
      omega
    | succ n ih =>
      intro c s h
      rw [show chain table c (n + 1) = (chain table c n).bind (parentStep table) from rfl] at h
      cases hc : chain table c n with
      | none => rw [hc] at h; exact absurd h (by simp)
      | some t =>
        rw [hc, Option.some_bind] at h
        have h1 := ih c t hc
        have h2 := hd t s h
        omega
  intro c n hch
  have := key (n + 1) c c hch
  omega

theorem table1_parentStep (c p : String) (h : parentStep table1 c = some p) :
    c = "B" ∧ p = "A" := by
  by_cases hc : c = "B"
  · subst hc
    refine ⟨rfl, ?_⟩
    have hv : parentStep table1 "B" = some "A" := rfl
    rw [hv] at h
    exact (Option.some_inj.mp h).symm
  · exfalso
    rw [parentStep, lookupRow, table1] at h
    rw [List.find?_cons_of_neg _ (by
      simp only [beq_iff_eq]
      intro heq
      exact hc heq.symm)] at h
    simp at h

theorem table1_acyclic : Acyclic table1 := by
  refine acyclic_of_depth table1 (fun c => if c = "B" then 1 else 0) ?_
  intro c p h
  obtain ⟨hc, hp⟩ := table1_parentStep c p h
  subst hc
  subst hp
  simp

/-! Claim theorems. -/

/-- C1 counterexample: on the scenario-A taxonomy, a query that would
otherwise succeed but carries the invalid rank "dialectt" does raise
InvalidArgument, yet the trace shows the spatial stages (geometry
normalization, buffering, spatial join, relation expansion) were all
performed during the call, refuting "before any spatial computation is
performed". -/
theorem C1_counterexample :
    (geo_filter_glottocodes ⟨2, 46⟩ 50 "dialectt" scenarioA).2 =
      Except.error (GeoError.invalidLevel "dialectt") ∧
    GeoEvent.spatialJoin ∈ (geo_filter_glottocodes ⟨2, 46⟩ 50 "dialectt" scenarioA).1 :=
  ⟨by rfl, by decide⟩

/-- C1 (amended): for every location, buffer and taxonomy, a rank outside
the four recognized values makes geo_filter_glottocodes raise
InvalidArgument, but only after the full spatial pipeline (geometry
normalization, buffering, spatial join, relation expansion) has run. -/
theorem C1_theorem (loc : GeoPoint) (buffer : ℚ) (level : String) (table : List Row)
    (h : level ∉ (["all", "language", "dialect", "family"] : List String)) :
    geo_filter_glottocodes loc buffer level table =
      ([GeoEvent.geometryNormalization, GeoEvent.buffering, GeoEvent.spatialJoin,
        GeoEvent.relationExpansion],
        Except.error (GeoError.invalidLevel level)) := by
  simp [geo_filter_glottocodes, h]

/-- C1 witness: the amended statement at the concrete rank "dialectt". -/
theorem C1_witness :
    "dialectt" ∉ (["all", "language", "dialect", "family"] : List String) ∧
    geo_filter_glottocodes ⟨2, 46⟩ 50 "dialectt" scenarioA =
      ([GeoEvent.geometryNormalization, GeoEvent.buffering, GeoEvent.spatialJoin,
        GeoEvent.relationExpansion],
        Except.error (GeoError.invalidLevel "dialectt")) :=
  ⟨by decide, C1_theorem ⟨2, 46⟩ 50 "dialectt" scenarioA (by decide)⟩

/-- C2 counterexample: for an input id with no matching row the returned
path is not empty (the id is appended before the lookup). -/
theorem C2_counterexample :
    find_ancestors ([] : List Row) "abcd1234" ≠ ([] : List String) := by
  decide

/-- C2 (amended): find_ancestors appends the current id to the path
before looking it up and stops after the append when the row is absent;
in particular, for an input id with no matching row the returned path is
the singleton [id], not []. -/
theorem C2_theorem (table : List Row) (glottocode : String)
    (h : lookupRow table glottocode = none) :
    find_ancestors table glottocode = [glottocode] := by
  simp [find_ancestors, walkAux, h]

/-- C2 witness: the amended statement on the empty table. -/
theorem C2_witness :
    lookupRow ([] : List Row) "abcd1234" = none ∧
    find_ancestors ([] : List Row) "abcd1234" = ["abcd1234"] :=
  ⟨rfl, C2_theorem [] "abcd1234" rfl⟩

/-- C3: the code contradicts the claim: when the fetched record parses
but lacks the core.name field, verify_glottocode_guess raises
KeyError "name" (the try block catches only IndexError) instead of
reporting the problem and returning false. -/
theorem C3_theorem :
    verify_glottocode_guess "French" "fren1234" []
      (FetchResult.ok [("core", [("macroareas", "Eurasia")])]) =
      Except.error (PyError.keyError "name") := by
  rfl

/-- C4: check_name returns true iff the candidate, lower-cased and
stripped of leading whitespace only, equals the primary name or some
alternate name normalized the same way; "French", "french" and
"  french" each match reference "French", while "french " (trailing
space) does not match "french". -/
theorem C4_theorem :
    (∀ language name_glottolog alt_names,
        check_name language name_glottolog alt_names = true ↔
          (pyNorm name_glottolog = pyNorm language ∨
            ∃ kv ∈ alt_names, ∃ alt ∈ kv.2, pyNorm alt = pyNorm language)) ∧
    check_name "French" "French" [] = true ∧
    check_name "french" "French" [] = true ∧
    check_name "  french" "French" [] = true ∧
    check_name "french " "french" [] = false := by
  refine ⟨?_, by decide, by decide, by decide, by decide⟩
  intro language name alts
  unfold check_name
  split
  · next hc =>
    rw [beq_iff_eq] at hc
    simp [hc]
  · next hc =>
    rw [List.any_eq_true]
    constructor
    · rintro ⟨kv, hkv, h2⟩
      rw [List.any_eq_true] at h2
      obtain ⟨alt, halt, h3⟩ := h2
      exact Or.inr ⟨kv, hkv, alt, halt, beq_iff_eq.mp h3⟩
    · rintro (h | ⟨kv, hkv, alt, halt, h3⟩)
      · exact absurd (beq_iff_eq.mpr h) hc
      · exact ⟨kv, hkv, List.any_eq_true.mpr ⟨alt, halt, beq_iff_eq.mpr h3⟩⟩

/-- C5: on a taxonomy in which following parent links never revisits a
node, the ancestry walk terminates (its fuel-indexed unfolding is stable
beyond the default fuel), the last element of the returned path is the
input id, and the first element has no parent resolvable in the table. -/
theorem C5_theorem (table : List Row) (glottocode : String) (hacyc : Acyclic table) :
    (∀ k, walkAux table (table.length + 1 + k) glottocode =
        walkAux table (table.length + 1) glottocode) ∧
    (find_ancestors table glottocode).getLast? = some glottocode ∧
    (∀ h1, (find_ancestors table glottocode).head? = some h1 →
      ¬ ∃ r p, lookupRow table h1 = some r ∧ r.parent_id = some p ∧
        (lookupRow table p).isSome) := by
  have hterm := chain_terminates table hacyc glottocode
  refine ⟨fun k => walkAux_stable table (table.length + 1) glottocode hterm k, ?_, ?_⟩
  · simp only [find_ancestors, List.getLast?_reverse]
    rfl
  · intro h1 hh
    simp only [find_ancestors, List.head?_reverse] at hh
    have hp := walkAux_getLast table (table.length + 1) glottocode hterm h1 hh
    rintro ⟨r, p, hr, hpp, _⟩
    rw [parentStep, hr, Option.some_bind, hpp] at hp
    cases hp

/-- C5 witness: the statement on the concrete acyclic one-row table with
a dangling parent reference. -/
theorem C5_witness :
    Acyclic table1 ∧
    ((∀ k, walkAux table1 (table1.length + 1 + k) "B" =
        walkAux table1 (table1.length + 1) "B") ∧
      (find_ancestors table1 "B").getLast? = some "B" ∧
      (∀ h1, (find_ancestors table1 "B").head? = some h1 →
        ¬ ∃ r p, lookupRow table1 h1 = some r ∧ r.parent_id = some p ∧
          (lookupRow table1 p).isSome)) :=
  ⟨table1_acyclic, C5_theorem table1 "B" table1_acyclic⟩

/-- C6 counterexample: on scenario A with rank "all", the candidate id C
is returned (it is re-added by the child expansion even though it has no
point), refuting the claimed candidate set of exactly A and B. -/
theorem C6_counterexample :
    "C" ∈ resolveIds ⟨2, 46⟩ 50 "all" scenarioA ∧
    ("C" : String) ∉ (["A", "B"] : List String) := by
  constructor
  · have h : resolveIds ⟨2, 46⟩ 50 "all" scenarioA = ["A", "B", "C"] := by
      norm_num [resolveIds, geo_filter_glottocodes, geoCandidates, candidateIds, seedIds,
        find_children, find_parents, parentMatches, scenarioA, pointInBuffer, withinBuffer,
        distSqKm, cosDeg, kmPerDeg, List.filter, List.contains, List.elem, List.filterMap]
    rw [h]
    decide
  · decide

/-- C6 (amended): on the scenario-A taxonomy, resolve with location
(2, 46), buffer 50 km and rank "all" returns exactly the candidate ids
A, B and C (C is included by the child expansion even though it lacks a
point), and rank "language" returns exactly B. -/
theorem C6_theorem :
    resolveIds ⟨2, 46⟩ 50 "all" scenarioA = ["A", "B", "C"] ∧
    resolveIds ⟨2, 46⟩ 50 "language" scenarioA = ["B"] := by
  constructor <;>
    norm_num [resolveIds, geo_filter_glottocodes, geoCandidates, candidateIds, seedIds,
      find_children, find_parents, parentMatches, scenarioA, pointInBuffer, withinBuffer,
      distSqKm, cosDeg, kmPerDeg, List.filter, List.contains, List.elem, List.filterMap,
      show ("language" : String) ≠ "all" from by decide,
      show (("family" : String) == "language") = false from by decide,
      show (("language" : String) == "language") = true from by decide,
      show (("dialect" : String) == "language") = false from by decide]

/-- C7: for a fixed location, taxonomy and rank, and nonnegative buffer
radii r1 < r2, every candidate id returned by resolve at radius r1 is
also returned at radius r2. -/
theorem C7_theorem (loc : GeoPoint) (table : List Row) (level : String) (r1 r2 : ℚ)
    (h0 : 0 ≤ r1) (h12 : r1 < r2) :
    ∀ s ∈ resolveIds loc r1 level table, s ∈ resolveIds loc r2 level table := by
  intro s hs
  by_cases hvalid : level ∈ (["all", "language", "dialect", "family"] : List String)
  · by_cases hall : level = "all"
    · subst hall
      rw [resolveIds_eq_of_ok (geo_filter_all loc r1 table)] at hs
      rw [resolveIds_eq_of_ok (geo_filter_all loc r2 table)]
      obtain ⟨r, hr, hid⟩ := List.mem_map.mp hs
      exact List.mem_map.mpr ⟨r, geoCandidates_mono h0 h12.le r hr, hid⟩
    · rw [resolveIds_eq_of_ok (geo_filter_level loc r1 table hvalid hall)] at hs
      rw [resolveIds_eq_of_ok (geo_filter_level loc r2 table hvalid hall)]
      obtain ⟨r, hr, hid⟩ := List.mem_map.mp hs
      rw [List.mem_filter] at hr
      exact List.mem_map.mpr ⟨r,
        List.mem_filter.mpr ⟨geoCandidates_mono h0 h12.le r hr.1, hr.2⟩, hid⟩
  · unfold resolveIds at hs
    rw [geo_filter_invalid loc r1 table hvalid] at hs
    simp at hs

/-- C7 witness: monotonicity instantiated at radii 50 < 100 on scenario
A with rank "all". -/
theorem C7_witness :
    (0 : ℚ) ≤ 50 ∧ (50 : ℚ) < 100 ∧
    "A" ∈ resolveIds ⟨2, 46⟩ 50 "all" scenarioA ∧
    "A" ∈ resolveIds ⟨2, 46⟩ 100 "all" scenarioA := by
  have hmem : "A" ∈ resolveIds ⟨2, 46⟩ 50 "all" scenarioA := by
    have h : resolveIds ⟨2, 46⟩ 50 "all" scenarioA = ["A", "B", "C"] := by
      norm_num [resolveIds, geo_filter_glottocodes, geoCandidates, candidateIds, seedIds,
        find_children, find_parents, parentMatches, scenarioA, pointInBuffer, withinBuffer,
        distSqKm, cosDeg, kmPerDeg, List.filter, List.contains, List.elem, List.filterMap]
    rw [h]
    decide
  exact ⟨by norm_num, by norm_num, hmem,
    C7_theorem ⟨2, 46⟩ scenarioA "all" 50 100 (by norm_num) (by norm_num) "A" hmem⟩

/-- C8: one-hop expansion never removes a seed id: every id produced by
the proximity filter is contained in the candidate ids that resolve
returns with rank "all". -/
theorem C8_theorem (loc : GeoPoint) (buffer : ℚ) (table : List Row) (s : String)
    (hs : s ∈ seedIds loc buffer table) :
    s ∈ resolveIds loc buffer "all" table := by
  rw [resolveIds_eq_of_ok (geo_filter_all loc buffer table)]
  obtain ⟨r, h1, h2, h3⟩ := mem_seedIds.mp hs
  refine List.mem_map.mpr ⟨r, ?_, h3⟩
  refine mem_geoCandidates.mpr ⟨h1, ?_⟩
  rw [h3]
  exact mem_candidateIds.mpr (Or.inl hs)

/-- C8 witness: the seed id A of scenario A is contained in the resolved
candidate ids. -/
theorem C8_witness :
    "A" ∈ seedIds ⟨2, 46⟩ 50 scenarioA ∧
    "A" ∈ resolveIds ⟨2, 46⟩ 50 "all" scenarioA := by
  have hseed : "A" ∈ seedIds ⟨2, 46⟩ 50 scenarioA := by
    have h : seedIds ⟨2, 46⟩ 50 scenarioA = ["A", "B"] := by
      norm_num [seedIds, scenarioA, pointInBuffer, withinBuffer, distSqKm, cosDeg,
        kmPerDeg, List.filter]
    rw [h]
    decide
  exact ⟨hseed, C8_theorem ⟨2, 46⟩ 50 scenarioA "A" hseed⟩

/-- C9: when the table ids are unique and the rank is valid, the rows
returned by resolve contain no duplicate ids; for a rank other than
"all" every returned row's rank equals the requested rank; for rank
"all" the candidate set is returned unfiltered. -/
theorem C9_theorem (loc : GeoPoint) (buffer : ℚ) (level : String) (table : List Row)
    (hids : (table.map (fun r => r.id)).Nodup)
    (hlevel : level ∈ (["all", "language", "dialect", "family"] : List String)) :
    ∀ rows, (geo_filter_glottocodes loc buffer level table).2 = Except.ok rows →
      ((rows.map (fun r => r.id)).Nodup ∧
        (level ≠ "all" → ∀ r ∈ rows, r.level = level) ∧
        (level = "all" → rows = geoCandidates loc buffer table)) := by
  intro rows hrows
  have hgeosub : (geoCandidates loc buffer table).Sublist table := List.filter_sublist table
  by_cases hall : level = "all"
  · subst hall
    rw [geo_filter_all] at hrows
    have heq : rows = geoCandidates loc buffer table := (Except.ok.inj hrows).symm
    subst heq
    exact ⟨List.Nodup.sublist (List.Sublist.map (fun r => r.id) hgeosub) hids,
      fun hne => absurd rfl hne, fun _ => rfl⟩
  · rw [geo_filter_level loc buffer table hlevel hall] at hrows
    have heq : rows = (geoCandidates loc buffer table).filter (fun r => r.level == level) :=
      (Except.ok.inj hrows).symm
    subst heq
    refine ⟨?_, ?_, fun h => absurd h hall⟩
    · have hsub2 : ((geoCandidates loc buffer table).filter
          (fun r => r.level == level)).Sublist table :=
        (List.filter_sublist _).trans hgeosub
      exact List.Nodup.sublist (List.Sublist.map (fun r => r.id) hsub2) hids
    · intro _ r hr
      exact beq_iff_eq.mp (List.mem_filter.mp hr).2

/-- C9 witness: the statement on scenario A with rank "language", whose
resolved rows are exactly the row of B. -/
theorem C9_witness :
    ((scenarioA.map (fun r => r.id)).Nodup ∧
      "language" ∈ (["all", "language", "dialect", "family"] : List String)) ∧
    (([(⟨"B", some "A", "B", "language", some ⟨23 / 10, 231 / 5⟩⟩ : Row)].map
        (fun r => r.id)).Nodup ∧
      ("language" ≠ "all" →
        ∀ r ∈ [(⟨"B", some "A", "B", "language", some ⟨23 / 10, 231 / 5⟩⟩ : Row)],
          r.level = "language") ∧
      ("language" = "all" →
        [(⟨"B", some "A", "B", "language", some ⟨23 / 10, 231 / 5⟩⟩ : Row)] =
          geoCandidates ⟨2, 46⟩ 50 scenarioA)) := by
  have hok : (geo_filter_glottocodes ⟨2, 46⟩ 50 "language" scenarioA).2 =
      Except.ok [(⟨"B", some "A", "B", "language", some ⟨23 / 10, 231 / 5⟩⟩ : Row)] := by
    norm_num [geo_filter_glottocodes, geoCandidates, candidateIds, seedIds,
      find_children, find_parents, parentMatches, scenarioA, pointInBuffer, withinBuffer,
      distSqKm, cosDeg, kmPerDeg, List.filter, List.contains, List.elem, List.filterMap,
      show ("language" : String) ≠ "all" from by decide,
      show (("family" : String) == "language") = false from by decide,
      show (("language" : String) == "language") = true from by decide,
      show (("dialect" : String) == "language") = false from by decide]
  exact ⟨⟨by decide, by decide⟩,
    C9_theorem ⟨2, 46⟩ 50 "language" scenarioA (by decide) (by decide) _ hok⟩

/-- C10: a parsed record without an altnames section yields an empty
alternate-name mapping rather than an error, so verification proceeds
comparing the candidate against the primary name only. -/
theorem C10_theorem (record : Record)
    (h : record.find? (fun kv => kv.1 == "altnames") = none) :
    extract_altnames record = [] ∧
    ∀ language name_glottolog,
      check_name language name_glottolog (extract_altnames record) =
        (pyNorm name_glottolog == pyNorm language) := by
  have he : extract_altnames record = [] := by
    simp [extract_altnames, h]
  refine ⟨he, ?_⟩
  intro language name
  rw [he]
  unfold check_name
  cases hb : (pyNorm name == pyNorm language) <;> simp [hb]

/-- C10 witness: the statement on a concrete record holding only a core
section. -/
theorem C10_witness :
    (([("core", [("name", "French")])] : Record).find?
        (fun kv => kv.1 == "altnames") = none) ∧
    extract_altnames [("core", [("name", "French")])] = [] ∧
    ∀ language name_glottolog,
      check_name language name_glottolog
          (extract_altnames [("core", [("name", "French")])]) =
        (pyNorm name_glottolog == pyNorm language) := by
  have h := C10_theorem [("core", [("name", "French")])] (by rfl)
  exact ⟨by rfl, h.1, h.2⟩

end GuessGlottocode
